import Mathlib

/-!
Runner authorization bridge: token verification and the SAML flow handlers.

A shallow embedding of `auth/verifier.go` and `auth/saml/handler.go`.

* Go `error` results become explicit sum types, a Go run-time panic becomes an
  explicit `panic` outcome.
* Calls into collaborators (the signature check of the JWT library, the
  identity-provider middleware, the session store, the HTTP response writer)
  are recorded in an explicit trace, so that "never calls" statements are
  statements about a list.
* A `time.Time` is the pair of `int64` seconds and nanoseconds its comparisons
  read, with the wrap-around of `int64` arithmetic.
-/

namespace Runner

/-! ## `time` -/

namespace time

/-- Go `time.Time`, as the pair its comparisons read: `sec()`, the seconds since
January 1 of year 1, held in an `int64`, and `nsec()`, the nanoseconds within
the second. -/
structure Time where
  sec : Int
  nsec : Int
  deriving DecidableEq

/-- Nanoseconds per second. -/
def second : Int := 1000000000

/-- Two's-complement wrap-around of `int64` arithmetic. -/
def wrap64 (x : Int) : Int := (x + 9223372036854775808) % 18446744073709551616 - 9223372036854775808

/-- Go `unixToInternal`: the seconds from January 1 of year 1 to the Unix epoch. -/
def unixToInternal : Int := 62135596800

/-- Go `unixTime(sec, nsec)`: the `int64` sum `sec + unixToInternal` wraps. -/
def unixTime (sec : Int) (nsec : Int) : Time := ⟨wrap64 (sec + unixToInternal), nsec⟩

/-- Go `time.Unix(sec, nsec)`: `nsec` outside `[0, 1e9)` is carried into `sec`. -/
def Unix (sec : Int) (nsec : Int) : Time :=
  if nsec < 0 ∨ nsec ≥ second then
    let n := Int.tdiv nsec second
    let sec := wrap64 (sec + n)
    let nsec := nsec - n * second
    if nsec < 0 then unixTime (wrap64 (sec - 1)) (nsec + second) else unixTime sec nsec
  else unixTime sec nsec

/-- Go `t.Unix()`: `t.sec() + internalToUnix`, an `int64` sum. -/
def Time.Unix (t : Time) : Int := wrap64 (t.sec - unixToInternal)

/-- Go `t.After(u)` when `u` carries no monotonic reading (as a value of
`time.Unix` does): the comparison of `sec()`, then of `nsec()`. -/
def Time.After (t u : Time) : Bool :=
  decide (t.sec > u.sec) || (decide (t.sec = u.sec) && decide (t.nsec > u.nsec))

/-- The instant of a time value as an unbounded count of nanoseconds since the
Unix epoch; the measure in which the theorems speak of "earlier" and "later". -/
def Time.nanos (t : Time) : Int := (t.sec - unixToInternal) * second + t.nsec

/-- A clock reading: nanoseconds within `[0, 1e9)` and a Unix time that fits
an `int64`. -/
def Time.isReading (t : Time) : Bool :=
  decide (0 ≤ t.nsec) && decide (t.nsec < second)
    && decide (-9223372036854775808 ≤ t.sec - unixToInternal)
    && decide (t.sec < 9223372036854775808)

end time

/-! ## `github.com/golang-jwt/jwt` (v3 line, the import path without a major suffix) -/

namespace jwt

/-- The Go dynamic type of a registered signing method.  `RSAPSS` is its own
struct type (it embeds `*SigningMethodRSA`), so a type assertion to
`*SigningMethodRSA` fails on it. -/
inductive SigningMethod
  | RSA
  | RSAPSS
  | HMAC
  | ECDSA
  | Ed25519
  | none
  deriving DecidableEq, Repr

/-- A decoded JSON value as `encoding/json` stores it in `map[string]interface{}`:
every JSON number is a `float64` (the default parser does not use `json.Number`),
a finite one, hence a rational.  Arrays and objects are carried as their JSON text. -/
inductive Value
  | float64 (x : ℚ)
  | string (s : String)
  | bool (b : Bool)
  | null
  | array (raw : String)
  | object (raw : String)
  deriving DecidableEq

/-- The dynamic type of a value as a failed type assertion prints it. -/
def Value.typeName : Value → String
  | .float64 _ => "float64"
  | .string _ => "string"
  | .bool _ => "bool"
  | .null => "nil"
  | .array _ => "[]interface \x7b\x7d"
  | .object _ => "map[string]interface \x7b\x7d"

/-- Go `jwt.MapClaims`, as an association list. -/
abbrev MapClaims := List (String × Value)

/-- Map indexing `m[k]`; `none` is the nil interface of a missing key. -/
def MapClaims.get (m : MapClaims) (k : String) : Option Value := m.lookup k

/-- Go conversion `int64(f)` of a finite `float64`: truncation toward zero; a value
outside the `int64` range yields the minimum `int64` (the amd64 result). -/
def int64 (x : ℚ) : Int :=
  let t := Int.tdiv x.num x.den
  if -(2 : Int) ^ 63 ≤ t ∧ t < (2 : Int) ^ 63 then t else -(2 : Int) ^ 63

/-- The bits of `ValidationError.Errors`. -/
inductive Flag
  | Malformed
  | Unverifiable
  | SignatureInvalid
  | Expired
  | IssuedAt
  | NotValidYet
  deriving DecidableEq, Repr

/-- The errors that end up in `ValidationError.Inner`. -/
inductive InnerError
  /-- The error returned by the key function of `Verifier.Verify`:
  "unexpected signing method: %v" applied to the "alg" header. -/
  | unexpectedSigningMethod (alg : String)
  /-- Text "Token is expired". -/
  | tokenIsExpired
  /-- Text "Token used before issued". -/
  | tokenUsedBeforeIssued
  /-- Text "Token is not valid yet". -/
  | tokenIsNotValidYet
  /-- The error returned by `SigningMethod.Verify`. -/
  | signature (msg : String)
  deriving DecidableEq

/-- Go `jwt.ValidationError`; `Errors` is the set of raised bits, in raising order. -/
structure ValidationError where
  Inner : Option InnerError
  Errors : List Flag
  text : String
  deriving DecidableEq

/-- Go `(*ValidationError).valid()`: no bit raised. -/
def ValidationError.valid (e : ValidationError) : Bool := e.Errors.isEmpty

/-- Go `jwt.Token`, with the "alg" entry of `Header`. -/
structure Token where
  Raw : String
  Method : SigningMethod
  alg : String
  Claims : MapClaims
  Signature : String
  Valid : Bool
  deriving DecidableEq

/-- Go `rsa.PublicKey`. -/
structure PublicKey where
  N : Nat
  E : Nat
  deriving DecidableEq, Repr

/-- One call of `SigningMethod.Verify(signingString, signature, key)`. -/
structure SigCall where
  method : SigningMethod
  signingString : String
  signature : String
  key : PublicKey
  deriving DecidableEq

/-- The parts of the library that are not control flow: decoding the three
segments of a token string, the cryptographic check of each signing method, and
the answer of `VerifyExpiresAt`, `VerifyIssuedAt` and `VerifyNotBefore` for a
claim ("exp", "iat", "nbf") that is present but not a number, which differs
between the releases of the v3 line. -/
structure Codec where
  /-- Go `Parser.ParseUnverified`: the token (with `Valid = false`), the signing
  string `parts[0] + "." + parts[1]` and the signature segment `parts[2]`. -/
  ParseUnverified : String → Except ValidationError (Token × String × String)
  /-- Go `token.Method.Verify`: `none` when the signature verifies, else the error text. -/
  MethodVerify : SigningMethod → String → String → PublicKey → Option String
  wrongTypePasses : String → Bool

/-- Go `verifyExp`. -/
def verifyExp (exp now : Int) (required : Bool) : Bool :=
  if exp = 0 then !required else decide (now ≤ exp)

/-- Go `verifyIat`. -/
def verifyIat (iat now : Int) (required : Bool) : Bool :=
  if iat = 0 then !required else decide (now ≥ iat)

/-- Go `verifyNbf`. -/
def verifyNbf (nbf now : Int) (required : Bool) : Bool :=
  if nbf = 0 then !required else decide (now ≥ nbf)

/-- Go `MapClaims.VerifyExpiresAt`. -/
def MapClaims.VerifyExpiresAt (lib : Codec) (m : MapClaims) (cmp : Int) (req : Bool) : Bool :=
  match m.get "exp" with
  | none => !req
  | some (.float64 exp) => verifyExp (int64 exp) cmp req
  | some _ => lib.wrongTypePasses "exp" && !req

/-- Go `MapClaims.VerifyIssuedAt`. -/
def MapClaims.VerifyIssuedAt (lib : Codec) (m : MapClaims) (cmp : Int) (req : Bool) : Bool :=
  match m.get "iat" with
  | none => !req
  | some (.float64 iat) => verifyIat (int64 iat) cmp req
  | some _ => lib.wrongTypePasses "iat" && !req

/-- Go `MapClaims.VerifyNotBefore`. -/
def MapClaims.VerifyNotBefore (lib : Codec) (m : MapClaims) (cmp : Int) (req : Bool) : Bool :=
  match m.get "nbf" with
  | none => !req
  | some (.float64 nbf) => verifyNbf (int64 nbf) cmp req
  | some _ => lib.wrongTypePasses "nbf" && !req

/-- Go `MapClaims.Valid`, reading the clock as `clock`: `none` is the nil error. -/
def MapClaims.Valid (lib : Codec) (m : MapClaims) (clock : time.Time) : Option ValidationError :=
  let vErr : ValidationError := ⟨none, [], ""⟩
  let now := time.Time.Unix clock
  let vErr := if !MapClaims.VerifyExpiresAt lib m now false
    then { vErr with Inner := some .tokenIsExpired, Errors := vErr.Errors ++ [.Expired] } else vErr
  let vErr := if !MapClaims.VerifyIssuedAt lib m now false
    then { vErr with Inner := some .tokenUsedBeforeIssued, Errors := vErr.Errors ++ [.IssuedAt] }
    else vErr
  let vErr := if !MapClaims.VerifyNotBefore lib m now false
    then { vErr with Inner := some .tokenIsNotValidYet, Errors := vErr.Errors ++ [.NotValidYet] }
    else vErr
  if vErr.valid then none else some vErr

/-- What `jwt.Parse` hands back, with the signature checks it performed. -/
structure ParseResult where
  token : Option Token
  err : Option ValidationError
  sigCalls : List SigCall

/-- Go `jwt.Parse(tokenString, keyFunc)` (`Parser.ParseWithClaims` with `MapClaims`
and the default parser): decode, ask the key function for the key, validate the
claims, check the signature. -/
def Parse (lib : Codec) (clock : time.Time) (tokenString : String)
    (keyFunc : Token → Except InnerError PublicKey) : ParseResult :=
  match lib.ParseUnverified tokenString with
  | .error err => ⟨none, some err, []⟩
  | .ok (token, signingString, sig) =>
    match keyFunc token with
    | .error err => ⟨some token, some ⟨some err, [.Unverifiable], ""⟩, []⟩
    | .ok key =>
      let vErr : ValidationError :=
        match MapClaims.Valid lib token.Claims clock with
        | some e => e
        | none => ⟨none, [], ""⟩
      let token := { token with Signature := sig }
      let call : SigCall := ⟨token.Method, signingString, sig, key⟩
      let vErr : ValidationError :=
        match lib.MethodVerify token.Method signingString sig key with
        | some msg =>
          { vErr with Inner := some (.signature msg), Errors := vErr.Errors ++ [.SignatureInvalid] }
        | none => vErr
      if vErr.valid then ⟨some { token with Valid := true }, none, [call]⟩
      else ⟨some token, some vErr, [call]⟩

end jwt

/-! ## `auth/verifier.go` -/

namespace auth

/-- Go `auth.Verifier`. -/
structure Verifier where
  VerifierKey : jwt.PublicKey

/-- The errors `Verify` builds with `fmt.Errorf`. -/
inductive VerifyError
  /-- Text "failed to parse token: %v". -/
  | failedToParseToken (err : jwt.ValidationError)
  /-- Text "invalid token". -/
  | invalidToken
  /-- Text "failed to get claims". -/
  | failedToGetClaims
  /-- Text "token has expired". -/
  | tokenHasExpired
  deriving DecidableEq

/-- How a call of `Verify` ends. -/
inductive Outcome
  /-- Returns `claims, nil`. -/
  | claims (c : jwt.MapClaims)
  /-- Returns `nil, err`. -/
  | error (e : VerifyError)
  /-- A run-time panic: the call does not return to its caller. -/
  | panic (msg : String)
  deriving DecidableEq

/-- A run of `Verify`: its outcome and the signature checks performed on the way. -/
structure VerifyRun where
  outcome : Outcome
  sigCalls : List jwt.SigCall

/-- The key function `Verify` passes to `jwt.Parse`: the type assertion
`token.Method.(*jwt.SigningMethodRSA)`, then the trusted key. -/
def Verifier.keyFunc (v : Verifier) (token : jwt.Token) : Except jwt.InnerError jwt.PublicKey :=
  match token.Method with
  | .RSA => .ok v.VerifierKey
  | _ => .error (.unexpectedSigningMethod token.alg)

/-- Go `(*Verifier).Verify`.  The clock is read twice: `t0` is the reading inside
`jwt.Parse` (the library's `TimeFunc()`), `now` the later reading `time.Now()` of
the expiry check.  `jwt.Parse` always fills `token.Claims` with a `MapClaims`,
so the checked assertion `token.Claims.(jwt.MapClaims)` succeeds; the unchecked
assertion `claims["exp"].(float64)` panics unless the entry is a number. -/
def Verifier.Verify (lib : jwt.Codec) (v : Verifier) (t0 now : time.Time)
    (tokenString : String) :
    VerifyRun :=
  let r := jwt.Parse lib t0 tokenString v.keyFunc
  match r.err with
  | some err => ⟨.error (.failedToParseToken err), r.sigCalls⟩
  | none =>
    match r.token with
    | none => ⟨.panic "invalid memory address or nil pointer dereference", r.sigCalls⟩
    | some token =>
      if !token.Valid then ⟨.error .invalidToken, r.sigCalls⟩
      else
        let claims := token.Claims
        match claims.get "exp" with
        | some (.float64 x) =>
          let exp := time.Unix (jwt.int64 x) 0
          if time.Time.After now exp then ⟨.error .tokenHasExpired, r.sigCalls⟩
          else ⟨.claims claims, r.sigCalls⟩
        | some other =>
          ⟨.panic ("interface conversion: interface \x7b\x7d is " ++ other.typeName
            ++ ", not float64"), r.sigCalls⟩
        | none => ⟨.panic "interface conversion: interface \x7b\x7d is nil, not float64", r.sigCalls⟩

end auth

/-! ## `net/url`

A Go string is a byte sequence.  It is carried as a `String` with one character
per byte (every code point below 256); the functions below work on the list of
those characters. -/

namespace url

/-- Go `ishex`. -/
def ishex (c : Char) : Bool :=
  (48 ≤ c.toNat && c.toNat ≤ 57) || (97 ≤ c.toNat && c.toNat ≤ 102)
    || (65 ≤ c.toNat && c.toNat ≤ 70)

/-- Go `unhex`. -/
def unhex (c : Char) : Nat :=
  if 48 ≤ c.toNat && c.toNat ≤ 57 then c.toNat - 48
  else if 97 ≤ c.toNat && c.toNat ≤ 102 then c.toNat - 97 + 10
  else if 65 ≤ c.toNat && c.toNat ≤ 70 then c.toNat - 65 + 10
  else 0

/-- Go `upperhex[n]`, the table "0123456789ABCDEF". -/
def upperhex (n : Nat) : Char :=
  if n < 10 then Char.ofNat (48 + n) else Char.ofNat (55 + n)

/-- Go `shouldEscape(c, encodeQueryComponent)`: everything but letters, digits
and the marks '-', '_', '.', '~'. -/
def shouldEscape (c : Char) : Bool :=
  !((97 ≤ c.toNat && c.toNat ≤ 122) || (65 ≤ c.toNat && c.toNat ≤ 90)
    || (48 ≤ c.toNat && c.toNat ≤ 57)
    || c = '-' || c = '_' || c = '.' || c = '~')

/-- Go `escape(s, encodeQueryComponent)` on the bytes of `s`. -/
def escapeChars : List Char → List Char
  | [] => []
  | c :: rest =>
    if c = ' ' then '+' :: escapeChars rest
    else if shouldEscape c then
      '%' :: upperhex (c.toNat / 16) :: upperhex (c.toNat % 16) :: escapeChars rest
    else c :: escapeChars rest

/-- Go `url.QueryEscape`. -/
def QueryEscape (s : String) : String := String.mk (escapeChars s.toList)

/-- Go `unescape(s, encodeQueryComponent)` on the bytes of `s`; `none` is the
`EscapeError` of a '%' that is not followed by two hexadecimal digits. -/
def unescapeChars : List Char → Option (List Char)
  | [] => some []
  | c :: rest =>
    if c = '%' then
      match rest with
      | a :: b :: rest2 =>
        if ishex a && ishex b then
          (unescapeChars rest2).map (fun t => Char.ofNat (unhex a * 16 + unhex b) :: t)
        else none
      | _ => none
    else if c = '+' then (unescapeChars rest).map (fun t => ' ' :: t)
    else (unescapeChars rest).map (fun t => c :: t)

/-- Go `url.QueryUnescape`. -/
def QueryUnescape (s : String) : Option String := (unescapeChars s.toList).map String.mk

/-- Go `url.Values` (`map[string][]string`): one entry per key. -/
abbrev Values := List (String × List String)

/-- Go `Values.Get`: the first value of the key, or the empty string. -/
def Values.Get (v : Values) (key : String) : String :=
  match v.lookup key with
  | some (x :: _) => x
  | _ => ""

/-- Go `Values.Add`: append to the values of the key. -/
def Values.Add : Values → String → String → Values
  | [], key, value => [(key, [value])]
  | (k, vs) :: rest, key, value =>
    if k = key then (k, vs ++ [value]) :: rest else (k, vs) :: Values.Add rest key value

/-- Split at every occurrence of a separator byte (iterated `strings.Cut`). -/
def splitChars (sep : Char) : List Char → List (List Char)
  | [] => [[]]
  | c :: rest =>
    if c = sep then [] :: splitChars sep rest
    else
      match splitChars sep rest with
      | [] => [[c]]
      | seg :: segs => (c :: seg) :: segs

/-- Go `strings.Cut(s, sep)` for a one-byte separator: the text before the first
separator and the text after it (empty when there is none). -/
def cutChars (sep : Char) : List Char → List Char × List Char
  | [] => ([], [])
  | c :: rest =>
    if c = sep then ([], rest)
    else (c :: (cutChars sep rest).1, (cutChars sep rest).2)

/-- One round of the loop of Go `parseQuery`, on one '&'-separated segment: a
segment with a ';', an empty segment, and a segment whose key or value does not
unescape are skipped. -/
def parseSegment (m : Values) (seg : List Char) : Values :=
  if seg.contains ';' then m
  else if seg.isEmpty then m
  else
    match unescapeChars (cutChars '=' seg).1, unescapeChars (cutChars '=' seg).2 with
    | some key, some value => m.Add (String.mk key) (String.mk value)
    | _, _ => m

/-- Go `url.ParseQuery`, as `URL.Query` uses it: the error is dropped, the
values parsed so far are kept. -/
def ParseQuery (query : String) : Values :=
  (splitChars '&' query.toList).foldl parseSegment []

/-- Byte-wise lexicographic order on strings, as `slices.Sort` uses it. -/
def leChars : List Char → List Char → Bool
  | [], _ => true
  | _ :: _, [] => false
  | a :: as, b :: bs => a.toNat < b.toNat || (a.toNat = b.toNat && leChars as bs)

/-- Insertion of one entry into a key-sorted list of entries. -/
def insertEntry (e : String × List String) : Values → Values
  | [] => [e]
  | x :: xs => if leChars e.1.toList x.1.toList then e :: x :: xs else x :: insertEntry e xs

/-- The entries of a `Values` in the order of their keys. -/
def sortEntries (v : Values) : Values := v.foldr insertEntry []

/-- The bytes of one "key=value" pair as `Values.Encode` writes it. -/
def pairChars (k v : String) : List Char :=
  (QueryEscape k).toList ++ '=' :: (QueryEscape v).toList

/-- The pairs `Values.Encode` writes for one entry. -/
def encodeEntry (e : String × List String) : List (List Char) :=
  e.2.map (fun value => pairChars e.1 value)

/-- The buffer `Values.Encode` fills: the pairs, with a '&' before every pair
but the first. -/
def joinPairs : List (List Char) → List Char
  | [] => []
  | [p] => p
  | p :: rest => p ++ '&' :: joinPairs rest

/-- Go `Values.Encode`: the pairs, sorted by key, joined by '&'. -/
def Values.Encode (v : Values) : String :=
  String.mk (joinPairs ((sortEntries v).flatMap encodeEntry))

/-- Go `url.URL`, the components the handlers touch. -/
structure URL where
  Scheme : String
  Host : String
  Path : String
  RawQuery : String
  deriving DecidableEq

/-- Go `URL.Query`. -/
def URL.Query (u : URL) : Values := ParseQuery u.RawQuery

/-- Go `url.Parse` on a request target, as far as the query goes: the fragment
after the first '#' is cut off, the query is what follows the first '?'. -/
def rawQueryOf (target : String) : String :=
  String.mk (cutChars '?' (cutChars '#' target.toList).1).2

end url

/-! ## `net/http` -/

namespace http

/-- One digit of `strconv.AppendInt(b, n, 16)`: lower-case hexadecimal. -/
def lowerhex (n : Nat) : Char :=
  if n < 10 then Char.ofNat (48 + n) else Char.ofNat (87 + n)

/-- Go `hexEscapeNonASCII` on the bytes of a string: a byte from 0x80 on becomes
'%' and its two lower-case hexadecimal digits. -/
def hexEscapeChars : List Char → List Char
  | [] => []
  | c :: rest =>
    if 128 ≤ c.toNat then
      '%' :: lowerhex (c.toNat / 16) :: lowerhex (c.toNat % 16) :: hexEscapeChars rest
    else c :: hexEscapeChars rest

/-- The `Location` header `http.Redirect(w, r, target, code)` sets for a target
of the form "/apps/saml/oauth2/session?...": the path before the first '?' is
already clean, so `path.Clean` leaves the target as it is, and only
`hexEscapeNonASCII` is applied. -/
def redirectLocation (target : String) : String := String.mk (hexEscapeChars target.toList)

/-- Go `http.Cookie`, the fields the handlers set. -/
structure Cookie where
  Name : String
  Value : String
  Path : String
  HttpOnly : Bool
  deriving DecidableEq

/-- An incoming request: the raw query of its URL and its cookies. -/
structure Request where
  RawQuery : String
  Cookies : List (String × String)
  deriving DecidableEq

/-- Go `r.URL.Query()`. -/
def Request.Query (r : Request) : url.Values := url.ParseQuery r.RawQuery

/-- Go `r.Cookie(name)`: the value of the named cookie, `none` for `ErrNoCookie`. -/
def Request.Cookie (r : Request) (name : String) : Option String := r.Cookies.lookup name

end http

/-! ## `auth/saml/handler.go` -/

namespace saml

/-- Modelled from the spec: the `BackendToken` of a `Session` (declared outside
the sources at hand), the opaque token obtained at login time, carrying an
`Expiry` timestamp. -/
structure BackendToken where
  Value : String
  Expiry : Int
  deriving DecidableEq

/-- Modelled from the spec: the `Session` record of the data model (declared
outside the sources at hand): `ID`, `BackendToken`, the nullable one-time
`AccessCode` and the `RunnerToken`, absent until the token exchange. -/
structure Session where
  ID : String
  BackendToken : BackendToken
  AccessCode : Option String
  RunnerToken : Option String
  deriving DecidableEq

/-- Modelled from the spec: `NewSession` (defined outside the sources at hand)
creates a session with a fresh `ID`, no access code and no runner token. -/
def NewSession (freshID : String) : Session := ⟨freshID, ⟨"", 0⟩, none, none⟩

/-- Modelled from the spec: `Session.SetBackendToken` (defined outside the
sources at hand) stores the backend token, with the expiry it carries. -/
def Session.SetBackendToken (s : Session) (expiryOf : String → Int) (value : String) : Session :=
  { s with BackendToken := ⟨value, expiryOf value⟩ }

/-- Modelled from the spec: `Session.SetAccessCode` (defined outside the sources
at hand) stores the code on the session; a previous code is discarded. -/
def Session.SetAccessCode (s : Session) (code : String) : Session :=
  { s with AccessCode := some code }

/-- Modelled from the spec: `Session.UnsetAccessCode` (defined outside the
sources at hand) clears the access code. -/
def Session.UnsetAccessCode (s : Session) : Session :=
  { s with AccessCode := none }

/-- Modelled from the spec: `Session.GenerateRunnerToken` (defined outside the
sources at hand) sets `RunnerToken` to a token signed for this session whose
validity ends at the given expiry. -/
def Session.GenerateRunnerToken (s : Session) (sign : String → Int → String) (expiry : Int) :
    Session :=
  { s with RunnerToken := some (sign s.ID expiry) }

/-- The `SessionStore` interface (declared outside the sources at hand), over a
store state `σ`: the four operations the handlers call.  A write returns the
next state and the error, `none` for nil. -/
structure SessionStore (σ : Type) where
  Create : σ → Session → σ × Option String
  GetByID : σ → String → Except String Session
  GetByAccessCode : σ → String → Except String Session
  Update : σ → Session → σ × Option String

/-- The error of `samlsp` `Session.GetSession`. -/
inductive SessionError
  | ErrNoSession
  | other (msg : String)
  deriving DecidableEq

/-- The collaborators of a `Handler`: the client registry (`auth.Runner`), the
downstream host (`auth.DeepSource`), the identity-provider middleware, the path
joining of `net/url`, and the token material of a `Session`. -/
structure Env where
  IsValidClientID : String → Bool
  IsValidClientSecret : String → Bool
  Host : url.URL
  joinPath : String → String → String
  GetSession : http.Request → Except SessionError Unit
  expiryOf : String → Int
  sign : String → Int → String

/-- The body handed to `c.JSON`. -/
inductive Body
  | text (s : String)
  | token (t : Option String)
  deriving DecidableEq

/-- What a handler does to the outside, in program order. -/
inductive Effect
  /-- Go `w.WriteHeader(status)`. -/
  | WriteHeader (status : Nat)
  /-- Go `w.Write(body)`. -/
  | Write (body : String)
  /-- Go `http.SetCookie(w, cookie)`. -/
  | SetCookie (cookie : http.Cookie)
  /-- Go `http.Redirect`: the `Location` header and the status. -/
  | HttpRedirect (location : String) (status : Nat)
  /-- Go `h.middleware.Session.GetSession(r)`. -/
  | GetSession
  /-- Go `h.middleware.HandleStartAuthFlow(w, r)`. -/
  | HandleStartAuthFlow
  /-- Go `h.middleware.OnError(w, r, err)`. -/
  | OnError (err : String)
  /-- Go `h.store.Create(session)`. -/
  | StoreCreate (session : Session)
  /-- Go `h.store.GetByID(id)`. -/
  | StoreGetByID (id : String)
  /-- Go `h.store.GetByAccessCode(code)`. -/
  | StoreGetByAccessCode (code : String)
  /-- Go `h.store.Update(session)`. -/
  | StoreUpdate (session : Session)
  /-- Go `ksuid.New().String()`, with the code it returned. -/
  | KsuidNew (code : String)
  /-- Go `c.JSON(status, body)`. -/
  | JSON (status : Nat) (body : Body)
  /-- Go `c.Redirect(status, u.String())`, with the URL `u`. -/
  | Redirect (status : Nat) (u : url.URL)
  deriving DecidableEq

/-- A run of a handler: its effects and the store state it leaves. -/
structure Run (σ : Type) where
  trace : List Effect
  store : σ

/-- Go `AuthorizationRequest`. -/
structure AuthorizationRequest where
  ClientID : String
  Scopes : String
  State : String
  deriving DecidableEq

/-- Go `(*AuthorizationRequest).Parse`. -/
def AuthorizationRequest.Parse (req : http.Request) : AuthorizationRequest :=
  let q := req.Query
  ⟨q.Get "client_id", q.Get "scopes", q.Get "state"⟩

/-- Go `(*Handler).AuthorizationHandler`, on the store state `db`; `freshID` is
the identifier `NewSession` draws. -/
def AuthorizationHandler {σ : Type} (env : Env) (store : SessionStore σ) (db : σ)
    (freshID : String) (r : http.Request) : Run σ :=
  let request := AuthorizationRequest.Parse r
  if !env.IsValidClientID request.ClientID then
    ⟨[.WriteHeader 400, .Write "invalid client_id"], db⟩
  else
    match env.GetSession r with
    | .error .ErrNoSession => ⟨[.GetSession, .HandleStartAuthFlow], db⟩
    | .error (.other err) => ⟨[.GetSession, .OnError err], db⟩
    | .ok _ =>
      match r.Cookie "token" with
      | none => ⟨[.GetSession, .WriteHeader 401, .Write "unauthorized"], db⟩
      | some token =>
        let session := NewSession freshID
        let session := session.SetBackendToken env.expiryOf token
        match store.Create db session with
        | (db1, some _) =>
          ⟨[.GetSession, .StoreCreate session, .WriteHeader 500, .Write "internal server error"],
            db1⟩
        | (db1, none) =>
          ⟨[.GetSession, .StoreCreate session,
              .SetCookie ⟨"session", session.ID, "/", true⟩,
              .HttpRedirect
                (http.redirectLocation ("/apps/saml/oauth2/session?state=" ++ request.State)) 307],
            db1⟩

/-- Go `SessionRequest`. -/
structure SessionRequest where
  State : String
  SessionID : String
  deriving DecidableEq

/-- Go `(*SessionRequest).Parse`: `State` is `c.QueryParam("state")`, that is
`URL.Query().Get("state")`; a missing cookie is the error `http.ErrNoCookie`. -/
def SessionRequest.Parse (c : http.Request) : Except String SessionRequest :=
  let state := c.Query.Get "state"
  match c.Cookie "session" with
  | none => .error "http: named cookie not present"
  | some value => .ok ⟨state, value⟩

/-- Go `(*Handler).HandleSession`; `code` is what `ksuid.New().String()` returns. -/
def HandleSession {σ : Type} (env : Env) (store : SessionStore σ) (db : σ)
    (code : String) (c : http.Request) : Run σ :=
  match SessionRequest.Parse c with
  | .error err => ⟨[.JSON 400 (.text err)], db⟩
  | .ok req =>
    match store.GetByID db req.SessionID with
    | .error err => ⟨[.StoreGetByID req.SessionID, .JSON 400 (.text err)], db⟩
    | .ok session =>
      let session := session.SetAccessCode code
      match store.Update db session with
      | (db1, some err) =>
        ⟨[.StoreGetByID req.SessionID, .KsuidNew code, .StoreUpdate session,
            .JSON 500 (.text err)], db1⟩
      | (db1, none) =>
        let u : url.URL :=
          { env.Host with
            Path := env.joinPath env.Host.Path "/accounts/runner/apps/saml/login/callback/bifrost/" }
        let q := u.Query
        let q := q.Add "app_id" "saml"
        let q := q.Add "code" code
        let q := q.Add "state" req.State
        let u := { u with RawQuery := q.Encode }
        ⟨[.StoreGetByID req.SessionID, .KsuidNew code, .StoreUpdate session, .Redirect 307 u],
          db1⟩

/-- Go `TokenRequest`. -/
structure TokenRequest where
  Code : String
  ClientID : String
  ClientSecret : String
  deriving DecidableEq

/-- Go `(*Handler).HandleToken`; `bound` is the result of `c.Bind(req)`, the
request or the binding error. -/
def HandleToken {σ : Type} (env : Env) (store : SessionStore σ) (db : σ)
    (bound : Except String TokenRequest) : Run σ :=
  match bound with
  | .error err => ⟨[.JSON 400 (.text err)], db⟩
  | .ok req =>
    if !env.IsValidClientID req.ClientID || !env.IsValidClientSecret req.ClientSecret then
      ⟨[.JSON 400 (.text "invalid client_id or client_secret")], db⟩
    else
      match store.GetByAccessCode db req.Code with
      | .error err => ⟨[.StoreGetByAccessCode req.Code, .JSON 500 (.text err)], db⟩
      | .ok session =>
        let session := session.UnsetAccessCode
        let session := session.GenerateRunnerToken env.sign session.BackendToken.Expiry
        match store.Update db session with
        | (db1, some err) =>
          ⟨[.StoreGetByAccessCode req.Code, .StoreUpdate session, .JSON 500 (.text err)], db1⟩
        | (db1, none) =>
          ⟨[.StoreGetByAccessCode req.Code, .StoreUpdate session,
              .JSON 200 (.token session.RunnerToken)], db1⟩

end saml

end Runner

namespace Runner

open jwt auth

/-! ## Sample inputs for the verifier -/

/-- A trusted key. -/
def sampleVerifier : Verifier := ⟨⟨3233, 17⟩⟩

/-- A codec that decodes four token strings: "rs" (RS256, exp 1700000000),
"hs" (HS256, same claims), "noexp" (RS256, no exp claim) and "strexp" (RS256,
exp a string); the signature segment "sig" verifies under every method. -/
def sampleCodec : Codec where
  ParseUnverified := fun s =>
    if s = "rs" then
      .ok (⟨"rs", .RSA, "RS256", [("sub", .string "u1"), ("exp", .float64 1700000000)], "", false⟩,
        "h.c", "sig")
    else if s = "hs" then
      .ok (⟨"hs", .HMAC, "HS256", [("sub", .string "u1"), ("exp", .float64 1700000000)], "", false⟩,
        "h.c", "sig")
    else if s = "noexp" then
      .ok (⟨"noexp", .RSA, "RS256", [("sub", .string "u1")], "", false⟩, "h.c", "sig")
    else if s = "strexp" then
      .ok (⟨"strexp", .RSA, "RS256", [("exp", .string "tomorrow")], "", false⟩, "h.c", "sig")
    else .error ⟨none, [.Malformed], "token contains an invalid number of segments"⟩
  MethodVerify := fun _ _ sig _ =>
    if sig = "sig" then none else some "crypto/rsa: verification error"
  wrongTypePasses := fun _ => false

end Runner

namespace Runner

namespace saml

/-- Modelled from the spec: an implementation of `SessionStore` (none is part of
the sources at hand), the in-memory store of section 9: the persisted sessions,
with point lookup by `ID` and by `AccessCode`; `Update` writes the session back
over the record with its `ID`, `Create` adds a record with a new `ID`. -/
def memStore : SessionStore (List Session) where
  Create := fun db s =>
    if db.any (fun x => x.ID = s.ID) then (db, some "session already exists")
    else (db ++ [s], none)
  GetByID := fun db id =>
    match db.find? (fun x => x.ID = id) with
    | some x => .ok x
    | none => .error "session not found"
  GetByAccessCode := fun db code =>
    match db.find? (fun x => x.AccessCode = some code) with
    | some x => .ok x
    | none => .error "session not found"
  Update := fun db s =>
    if db.any (fun x => x.ID = s.ID) then (db.map (fun x => if x.ID = s.ID then s else x), none)
    else (db, some "session not found")

/-- The contract of a `SessionStore` the replay argument rests on, for a notion
`holds db x` of "the session `x` is persisted in the state `db`": a lookup by
access code succeeds only with a persisted session that has that code, and
fails when no persisted session has it; a successful `Update` writes the given
session over the records with its `ID` and a successful `Create` adds the given
session, and neither brings in any other session; a failed write brings in
nothing. -/
structure StoreContract {σ : Type} (store : SessionStore σ) (holds : σ → Session → Prop) :
    Prop where
  lookup_sound : ∀ db code x, store.GetByAccessCode db code = .ok x →
    holds db x ∧ x.AccessCode = some code
  lookup_complete : ∀ db code, (∀ x, holds db x → x.AccessCode ≠ some code) →
    ∃ err, store.GetByAccessCode db code = .error err
  update_ok : ∀ db s db1 x, store.Update db s = (db1, none) → holds db1 x →
    (holds db x ∧ x.ID ≠ s.ID) ∨ x = s
  update_err : ∀ db s db1 err x, store.Update db s = (db1, some err) → holds db1 x → holds db x
  create_ok : ∀ db s db1 x, store.Create db s = (db1, none) → holds db1 x → holds db x ∨ x = s
  create_err : ∀ db s db1 err x, store.Create db s = (db1, some err) → holds db1 x → holds db x

/-- A call that issues no access code: a start request or a token exchange. -/
inductive Call
  | Authorization (freshID : String) (r : http.Request)
  | Token (bound : Except String TokenRequest)

/-- The store state a call leaves. -/
def Call.exec {σ : Type} (env : Env) (store : SessionStore σ) (db : σ) : Call → σ
  | .Authorization freshID r => (AuthorizationHandler env store db freshID r).store
  | .Token bound => (HandleToken env store db bound).store

/-- The store state a sequence of calls leaves, one call after the other. -/
def execCalls {σ : Type} (env : Env) (store : SessionStore σ) (db : σ) (calls : List Call) : σ :=
  calls.foldl (Call.exec env store) db

/-- The access code `code` is pending in at most one record: the persisted
sessions that carry it share one `ID`. -/
def CodeUnique {σ : Type} (holds : σ → Session → Prop) (db : σ) (code : String) : Prop :=
  ∀ x y, holds db x → holds db y → x.AccessCode = some code → y.AccessCode = some code →
    x.ID = y.ID

/-- No persisted session carries the access code `code`. -/
def CodeAbsent {σ : Type} (holds : σ → Session → Prop) (db : σ) (code : String) : Prop :=
  ∀ x, holds db x → x.AccessCode ≠ some code

end saml

/-! ## Sample inputs for the handlers -/

/-- A deployment with one registered client, "abc123" with secret "s3cret",
whose identity provider reports an authenticated caller exactly when the
request carries the cookie "token". -/
def sampleEnv : saml.Env where
  IsValidClientID := fun id => id = "abc123"
  IsValidClientSecret := fun secret => secret = "s3cret"
  Host := ⟨"https", "deepsource.example", "", ""⟩
  joinPath := fun base elem => base ++ elem
  GetSession := fun r =>
    match r.Cookie "token" with
    | some _ => .ok ()
    | none => .error .ErrNoSession
  expiryOf := fun _ => 1700003600
  sign := fun id _ => "runner-token:" ++ id

/-- A persisted session with the pending access code "9XJ". -/
def sampleSession : saml.Session := ⟨"S1", ⟨"backend", 1700003600⟩, some "9XJ", none⟩

end Runner

namespace Runner

open jwt auth

/-! ## Lemmas on the verifier -/

theorem int64_intCast (T : Int) (hlo : -(2 : Int) ^ 63 ≤ T) (hhi : T < (2 : Int) ^ 63) :
    jwt.int64 (T : ℚ) = T := by
  have hlo' : -9223372036854775808 ≤ T := by norm_num at hlo; exact hlo
  have hhi' : T < 9223372036854775808 := by norm_num at hhi; exact hhi
  simp only [jwt.int64, Rat.intCast_num, Rat.intCast_den, Nat.cast_one, Int.tdiv_one]
  norm_num
  intro h
  omega

/-! ## Theorems on `Verifier.Verify` -/

/-- C1: a token string that decodes to a token whose signing method is not of
type `*SigningMethodRSA` makes `Verify` return the "unexpected signing method"
error (wrapped by "failed to parse token") and no claims, whatever the claims
and the clock say, and no signature check is performed, so the trusted key
never reaches signature validation. -/
theorem verify_rejects_non_rsa_method (lib : Codec) (v : Verifier) (t0 now : time.Time)
    (tokenString : String) (tok : Token) (signingString sig : String)
    (hparse : lib.ParseUnverified tokenString = .ok (tok, signingString, sig))
    (hmethod : tok.Method ≠ .RSA) :
    (v.Verify lib t0 now tokenString).outcome
        = .error (.failedToParseToken ⟨some (.unexpectedSigningMethod tok.alg), [.Unverifiable], ""⟩)
      ∧ (v.Verify lib t0 now tokenString).sigCalls = [] := by
  have hkey : v.keyFunc tok = .error (.unexpectedSigningMethod tok.alg) := by
    unfold Verifier.keyFunc
    cases hm : tok.Method <;> simp_all
  simp [Verifier.Verify, jwt.Parse, hparse, hkey]

theorem verify_rejects_non_rsa_method_witness :
    (sampleVerifier.Verify sampleCodec (time.Unix 1600000000 0) (time.Unix 1600000000 0) "hs").outcome
        = .error (.failedToParseToken ⟨some (.unexpectedSigningMethod "HS256"), [.Unverifiable], ""⟩)
      ∧ (sampleVerifier.Verify sampleCodec (time.Unix 1600000000 0) (time.Unix 1600000000 0) "hs").sigCalls = [] :=
  verify_rejects_non_rsa_method sampleCodec sampleVerifier (time.Unix 1600000000 0)
    (time.Unix 1600000000 0) "hs"
    ⟨"hs", .HMAC, "HS256", [("sub", .string "u1"), ("exp", .float64 1700000000)], "", false⟩
    "h.c" "sig" rfl (by decide)

/-- The library's expiry check on a whole-second "exp" claim. -/
theorem verifyExpiresAt_of_exp (lib : Codec) (m : MapClaims) (T cmp : Int)
    (hlo : -(2 : Int) ^ 63 ≤ T) (hhi : T < (2 : Int) ^ 63)
    (hexp : m.get "exp" = some (.float64 (T : ℚ))) :
    MapClaims.VerifyExpiresAt lib m cmp false = verifyExp T cmp false := by
  simp [MapClaims.VerifyExpiresAt, hexp, int64_intCast T hlo hhi]

theorem wrap64_of_int64 (x : Int) (hlo : -9223372036854775808 ≤ x)
    (hhi : x < 9223372036854775808) : time.wrap64 x = x := by
  unfold time.wrap64
  omega

/-- The value `time.Unix(T, 0)` for a second `T` whose internal form fits an `int64`. -/
theorem unix_of_second (T : Int) (hlo : -9223372036854775808 ≤ T)
    (hhi : T ≤ 9223371974719179007) :
    time.Unix T 0 = ⟨T + time.unixToInternal, 0⟩ := by
  have hw : time.wrap64 (T + 62135596800) = T + 62135596800 :=
    wrap64_of_int64 _ (by omega) (by omega)
  simp [time.Unix, time.unixTime, time.second, time.unixToInternal, hw]

/-- C3 (boundary): at the instant that equals the "exp" claim a correctly
RS256-signed token is still accepted, and `Verify` returns its claims. -/
theorem verify_accepts_at_expiry_instant :
    sampleCodec.ParseUnverified "rs"
        = .ok (⟨"rs", .RSA, "RS256", [("sub", .string "u1"), ("exp", .float64 1700000000)], "", false⟩,
            "h.c", "sig")
      ∧ (sampleVerifier.Verify sampleCodec (time.Unix 1700000000 0) (time.Unix 1700000000 0)
          "rs").outcome
        = .claims [("sub", .string "u1"), ("exp", .float64 1700000000)] := by
  constructor
  · rfl
  · decide

/-- C3 (amended): for a correctly RSA-signed token whose "exp" claim is the
whole second `T`, an `int64` value up to 9223371974719179007 (beyond it
`time.Unix` wraps), and whose "iat" and "nbf" claims pass the library's checks,
and for clock readings `t0` (inside `jwt.Parse`) and `now` (at the expiry
check) with `t0` not later than `now`: `Verify` returns the claim set whenever
`now` is at most `T`, the instant `T` itself included, and fails with an
expiry error whenever `now` is later than `T`, "token has expired" from
`Verify` itself or "Token is expired" from the library. -/
theorem verify_expiry_boundary (lib : Codec) (v : Verifier) (t0 now : time.Time)
    (tokenString : String) (tok : Token) (signingString sig : String) (T : Int)
    (hparse : lib.ParseUnverified tokenString = .ok (tok, signingString, sig))
    (hmethod : tok.Method = .RSA)
    (hsig : lib.MethodVerify .RSA signingString sig v.VerifierKey = none)
    (hlo : -9223372036854775808 ≤ T) (hhi : T ≤ 9223371974719179007)
    (hexp : tok.Claims.get "exp" = some (.float64 (T : ℚ)))
    (hiat : MapClaims.VerifyIssuedAt lib tok.Claims (time.Time.Unix t0) false = true)
    (hnbf : MapClaims.VerifyNotBefore lib tok.Claims (time.Time.Unix t0) false = true)
    (ht0 : t0.isReading = true) (hnow : now.isReading = true)
    (hclock : t0.nanos ≤ now.nanos) :
    (now.nanos ≤ T * time.second → (v.Verify lib t0 now tokenString).outcome = .claims tok.Claims)
      ∧ (T * time.second < now.nanos →
          (v.Verify lib t0 now tokenString).outcome = .error .tokenHasExpired
            ∨ (v.Verify lib t0 now tokenString).outcome
                = .error (.failedToParseToken ⟨some .tokenIsExpired, [.Expired], ""⟩)) := by
  have hkey : v.keyFunc tok = .ok v.VerifierKey := by
    simp [Verifier.keyFunc, hmethod]
  have hlo64 : -(2 : Int) ^ 63 ≤ T := by norm_num; exact hlo
  have hhi64 : T < (2 : Int) ^ 63 := by norm_num; omega
  have hE := verifyExpiresAt_of_exp lib tok.Claims T (time.Time.Unix t0) hlo64 hhi64 hexp
  have h64 := int64_intCast T hlo64 hhi64
  have hU := unix_of_second T hlo hhi
  simp only [time.Time.isReading, time.second, time.unixToInternal, Bool.and_eq_true,
    decide_eq_true_eq] at ht0 hnow
  obtain ⟨⟨⟨h0a, h0b⟩, h0c⟩, h0d⟩ := ht0
  obtain ⟨⟨⟨hna, hnb⟩, hnc⟩, hnd⟩ := hnow
  have ht0U : time.Time.Unix t0 = t0.sec - 62135596800 := by
    simp only [time.Time.Unix, time.unixToInternal]
    exact wrap64_of_int64 _ h0c (by omega)
  simp only [time.Time.nanos, time.second, time.unixToInternal] at hclock
  constructor
  · intro hle
    simp only [time.Time.nanos, time.second, time.unixToInternal] at hle
    have hlib : verifyExp T (time.Time.Unix t0) false = true := by
      rw [ht0U]
      simp only [verifyExp]
      by_cases hz : T = 0
      · simp [hz]
      · simp only [hz, if_false, decide_eq_true_eq]
        omega
    have hafter : time.Time.After now ⟨T + time.unixToInternal, 0⟩ = false := by
      simp only [time.Time.After, time.unixToInternal, Bool.or_eq_false_iff,
        Bool.and_eq_false_iff, decide_eq_false_iff_not]
      constructor
      · omega
      · by_cases hs : now.sec = T + 62135596800
        · right; omega
        · left; exact hs
    simp [Verifier.Verify, jwt.Parse, hparse, hkey, MapClaims.Valid, hE, hlib, hiat, hnbf,
      ValidationError.valid, hmethod, hsig, hexp, h64, hU, hafter]
  · intro hlt
    simp only [time.Time.nanos, time.second, time.unixToInternal] at hlt
    have hafter : time.Time.After now ⟨T + time.unixToInternal, 0⟩ = true := by
      simp only [time.Time.After, time.unixToInternal, Bool.or_eq_true, Bool.and_eq_true,
        decide_eq_true_eq]
      by_cases hs : now.sec > T + 62135596800
      · left; exact hs
      · right; constructor <;> omega
    by_cases hlib : verifyExp T (time.Time.Unix t0) false = true
    · left
      simp [Verifier.Verify, jwt.Parse, hparse, hkey, MapClaims.Valid, hE, hlib, hiat, hnbf,
        ValidationError.valid, hmethod, hsig, hexp, h64, hU, hafter]
    · right
      simp [Verifier.Verify, jwt.Parse, hparse, hkey, MapClaims.Valid, hE, hlib, hiat, hnbf,
        ValidationError.valid, hmethod, hsig]

theorem verify_expiry_boundary_witness :
    (sampleVerifier.Verify sampleCodec (time.Unix 1700000000 0) (time.Unix 1700000000 0)
        "rs").outcome
        = .claims [("sub", .string "u1"), ("exp", .float64 1700000000)]
      ∧ ((sampleVerifier.Verify sampleCodec (time.Unix 1700000000 0) (time.Unix 1700000000 1)
            "rs").outcome
          = .error .tokenHasExpired
        ∨ (sampleVerifier.Verify sampleCodec (time.Unix 1700000000 0) (time.Unix 1700000000 1)
            "rs").outcome
          = .error (.failedToParseToken ⟨some .tokenIsExpired, [.Expired], ""⟩)) :=
  ⟨(verify_expiry_boundary sampleCodec sampleVerifier (time.Unix 1700000000 0)
      (time.Unix 1700000000 0) "rs"
      ⟨"rs", .RSA, "RS256", [("sub", .string "u1"), ("exp", .float64 1700000000)], "", false⟩
      "h.c" "sig" 1700000000 rfl rfl rfl (by decide) (by decide) (by decide) (by decide)
      (by decide) (by decide) (by decide) (by decide)).1 (by decide),
    (verify_expiry_boundary sampleCodec sampleVerifier (time.Unix 1700000000 0)
      (time.Unix 1700000000 1) "rs"
      ⟨"rs", .RSA, "RS256", [("sub", .string "u1"), ("exp", .float64 1700000000)], "", false⟩
      "h.c" "sig" 1700000000 rfl rfl rfl (by decide) (by decide) (by decide) (by decide)
      (by decide) (by decide) (by decide) (by decide)).2 (by decide)⟩

/-- C5: a correctly RS256-signed token without an "exp" claim passes
`jwt.Parse`, and `Verify` then panics in the unchecked type assertion
`claims["exp"].(float64)` instead of returning an error. -/
theorem verify_panics_without_exp :
    sampleCodec.ParseUnverified "noexp"
        = .ok (⟨"noexp", .RSA, "RS256", [("sub", .string "u1")], "", false⟩, "h.c", "sig")
      ∧ (sampleVerifier.Verify sampleCodec (time.Unix 1600000000 0) (time.Unix 1600000000 0) "noexp").outcome
        = .panic "interface conversion: interface \x7b\x7d is nil, not float64" := by
  constructor
  · rfl
  · decide

/-- Every correctly RSA-signed token without an "exp" claim whose "iat" and "nbf"
claims pass the library's checks makes `Verify` panic. -/
theorem verify_panics_when_exp_missing (lib : Codec) (v : Verifier) (t0 now : time.Time)
    (tokenString : String) (tok : Token) (signingString sig : String)
    (hparse : lib.ParseUnverified tokenString = .ok (tok, signingString, sig))
    (hmethod : tok.Method = .RSA)
    (hsig : lib.MethodVerify .RSA signingString sig v.VerifierKey = none)
    (hexp : tok.Claims.get "exp" = none)
    (hiat : MapClaims.VerifyIssuedAt lib tok.Claims (time.Time.Unix t0) false = true)
    (hnbf : MapClaims.VerifyNotBefore lib tok.Claims (time.Time.Unix t0) false = true) :
    (v.Verify lib t0 now tokenString).outcome
      = .panic "interface conversion: interface \x7b\x7d is nil, not float64" := by
  have hkey : v.keyFunc tok = .ok v.VerifierKey := by
    simp [Verifier.keyFunc, hmethod]
  have hE : MapClaims.VerifyExpiresAt lib tok.Claims (time.Time.Unix t0) false = true := by
    simp [MapClaims.VerifyExpiresAt, hexp]
  simp [Verifier.Verify, jwt.Parse, hparse, hkey, MapClaims.Valid, hE, hiat, hnbf,
    ValidationError.valid, hmethod, hsig, hexp]

/-- An "exp" claim that is a string: with a library release that rejects a claim
of the wrong type the token fails as expired, with one that lets it pass
`Verify` panics in the type assertion. -/
theorem verify_with_string_exp :
    (sampleVerifier.Verify sampleCodec (time.Unix 1600000000 0) (time.Unix 1600000000 0)
        "strexp").outcome
        = .error (.failedToParseToken ⟨some .tokenIsExpired, [.Expired], ""⟩)
      ∧ (sampleVerifier.Verify { sampleCodec with wrongTypePasses := fun _ => true }
          (time.Unix 1600000000 0) (time.Unix 1600000000 0) "strexp").outcome
        = .panic "interface conversion: interface \x7b\x7d is string, not float64" := by
  constructor <;> decide

end Runner

namespace Runner

open saml

/-! ## Theorems on the handlers -/

/-- The run of a token exchange whose lookup by access code fails. -/
theorem handleToken_lookup_failure_aux {σ : Type} (env : Env) (store : SessionStore σ) (db : σ)
    (req : TokenRequest) (err : String)
    (hid : env.IsValidClientID req.ClientID = true)
    (hsecret : env.IsValidClientSecret req.ClientSecret = true)
    (hmiss : store.GetByAccessCode db req.Code = .error err) :
    HandleToken env store db (.ok req)
      = ⟨[.StoreGetByAccessCode req.Code, .JSON 500 (.text err)], db⟩ := by
  simp [HandleToken, hid, hsecret, hmiss]

/-- C4: a token exchange with valid client credentials whose code the store's
lookup does not find is answered with status 500 and the lookup's error text;
no token is returned, `Update` is not called and the store is left as it was. -/
theorem handleToken_lookup_failure {σ : Type} (env : Env) (store : SessionStore σ) (db : σ)
    (req : TokenRequest) (err : String)
    (hid : env.IsValidClientID req.ClientID = true)
    (hsecret : env.IsValidClientSecret req.ClientSecret = true)
    (hmiss : store.GetByAccessCode db req.Code = .error err) :
    HandleToken env store db (.ok req)
      = ⟨[.StoreGetByAccessCode req.Code, .JSON 500 (.text err)], db⟩ :=
  handleToken_lookup_failure_aux env store db req err hid hsecret hmiss

theorem handleToken_lookup_failure_witness :
    HandleToken sampleEnv memStore [] (.ok ⟨"never-issued", "abc123", "s3cret"⟩)
      = ⟨[.StoreGetByAccessCode "never-issued", .JSON 500 (.text "session not found")], []⟩ :=
  handleToken_lookup_failure sampleEnv memStore [] ⟨"never-issued", "abc123", "s3cret"⟩
    "session not found" (by decide) (by decide) rfl

/-- C6: a start request whose `client_id` is not a registered client is answered
with status 400 and the body "invalid client_id", and nothing else happens: the
identity provider is neither queried nor started, `Create` is not called, no
cookie is set, and the store is left as it was. -/
theorem authorization_invalid_client {σ : Type} (env : Env) (store : SessionStore σ) (db : σ)
    (freshID : String) (r : http.Request)
    (hid : env.IsValidClientID (AuthorizationRequest.Parse r).ClientID = false) :
    AuthorizationHandler env store db freshID r
      = ⟨[.WriteHeader 400, .Write "invalid client_id"], db⟩ := by
  simp [AuthorizationHandler, hid]

theorem authorization_invalid_client_witness :
    AuthorizationHandler sampleEnv memStore [] "S1"
        ⟨"client_id=mallory&state=xyz", [("token", "backend")]⟩
      = ⟨[.WriteHeader 400, .Write "invalid client_id"], []⟩ :=
  authorization_invalid_client sampleEnv memStore [] "S1"
    ⟨"client_id=mallory&state=xyz", [("token", "backend")]⟩ (by decide)

/-- C7: a start request with a registered `client_id`, whatever its state, for
which the identity provider reports `ErrNoSession` is handed to
`HandleStartAuthFlow` and nothing else happens: `Create` is not called, no
cookie is set, no response is written by the handler itself, and the store is
left as it was. -/
theorem authorization_no_idp_session {σ : Type} (env : Env) (store : SessionStore σ) (db : σ)
    (freshID : String) (r : http.Request)
    (hid : env.IsValidClientID (AuthorizationRequest.Parse r).ClientID = true)
    (hidp : env.GetSession r = .error .ErrNoSession) :
    AuthorizationHandler env store db freshID r = ⟨[.GetSession, .HandleStartAuthFlow], db⟩ := by
  simp [AuthorizationHandler, hid, hidp]

theorem authorization_no_idp_session_witness :
    AuthorizationHandler sampleEnv memStore [] "S1" ⟨"client_id=abc123&state=x%26y", []⟩
      = ⟨[.GetSession, .HandleStartAuthFlow], []⟩ :=
  authorization_no_idp_session sampleEnv memStore [] "S1" ⟨"client_id=abc123&state=x%26y", []⟩
    (by decide) rfl

/-- C8: for the state "a&b" the start handler completes and redirects to
"/apps/saml/oauth2/session?state=a&b": the state is appended without query
escaping, and the "state" parameter read back from that target is "a". -/
theorem authorization_state_not_escaped :
    (AuthorizationRequest.Parse ⟨"client_id=abc123&state=a%26b", [("token", "backend")]⟩).State
        = "a&b"
      ∧ (AuthorizationHandler sampleEnv memStore [] "S1"
          ⟨"client_id=abc123&state=a%26b", [("token", "backend")]⟩).trace
        = [.GetSession, .StoreCreate ⟨"S1", ⟨"backend", 1700003600⟩, none, none⟩,
            .SetCookie ⟨"session", "S1", "/", true⟩,
            .HttpRedirect "/apps/saml/oauth2/session?state=a&b" 307]
      ∧ (url.ParseQuery (url.rawQueryOf "/apps/saml/oauth2/session?state=a&b")).Get "state"
        = "a" := by
  refine ⟨?_, ?_, ?_⟩ <;> decide

end Runner

namespace Runner

open saml

/-! ## Replay of a consumed access code -/

theorem unset_generate_ID (s : Session) (sign : String → Int → String) (expiry : Int) :
    (s.UnsetAccessCode.GenerateRunnerToken sign expiry).ID = s.ID := rfl

theorem unset_generate_AccessCode (s : Session) (sign : String → Int → String) (expiry : Int) :
    (s.UnsetAccessCode.GenerateRunnerToken sign expiry).AccessCode = none := rfl

/-- A token exchange brings in no session that carries `code`. -/
theorem handleToken_keeps_absent {σ : Type} (env : Env) (store : SessionStore σ)
    (holds : σ → Session → Prop) (hc : StoreContract store holds) (db : σ) (code : String)
    (bound : Except String TokenRequest) (habs : CodeAbsent holds db code) :
    CodeAbsent holds (HandleToken env store db bound).store code := by
  unfold HandleToken
  cases bound with
  | error err => exact habs
  | ok req =>
    dsimp only
    split
    · exact habs
    · cases hlook : store.GetByAccessCode db req.Code with
      | error err => exact habs
      | ok session =>
        dsimp only
        cases hupd : store.Update db
            (session.UnsetAccessCode.GenerateRunnerToken env.sign
              session.UnsetAccessCode.BackendToken.Expiry) with
        | mk db1 res =>
          cases res with
          | some err =>
            intro x hx
            exact habs x (hc.update_err _ _ _ _ x hupd hx)
          | none =>
            intro x hx
            rcases hc.update_ok _ _ _ x hupd hx with h | h
            · exact habs x h.1
            · rw [h, unset_generate_AccessCode]
              simp

/-- A start request brings in no session that carries `code`. -/
theorem authorization_keeps_absent {σ : Type} (env : Env) (store : SessionStore σ)
    (holds : σ → Session → Prop) (hc : StoreContract store holds) (db : σ) (code : String)
    (freshID : String) (r : http.Request) (habs : CodeAbsent holds db code) :
    CodeAbsent holds (AuthorizationHandler env store db freshID r).store code := by
  unfold AuthorizationHandler
  dsimp only
  split
  · exact habs
  · split
    · exact habs
    · exact habs
    · split
      · exact habs
      · rename_i token _
        cases hcr : store.Create db ((NewSession freshID).SetBackendToken env.expiryOf token) with
        | mk db1 res =>
          cases res with
          | some err =>
            intro x hx
            exact habs x (hc.create_err _ _ _ _ x hcr hx)
          | none =>
            intro x hx
            rcases hc.create_ok _ _ _ x hcr hx with h | h
            · exact habs x h
            · rw [h]
              simp [Session.SetBackendToken, NewSession]

/-- A sequence of start requests and token exchanges brings in no session that
carries `code`. -/
theorem execCalls_keeps_absent {σ : Type} (env : Env) (store : SessionStore σ)
    (holds : σ → Session → Prop) (hc : StoreContract store holds) (code : String)
    (calls : List Call) :
    ∀ db : σ, CodeAbsent holds db code → CodeAbsent holds (execCalls env store db calls) code := by
  induction calls with
  | nil => intro db habs; exact habs
  | cons call rest ih =>
    intro db habs
    simp only [execCalls, List.foldl_cons]
    apply ih
    cases call with
    | Authorization freshID r =>
      exact authorization_keeps_absent env store holds hc db code freshID r habs
    | Token bound => exact handleToken_keeps_absent env store holds hc db code bound habs

/-- A successful token exchange leaves no persisted session with the code it
consumed, when that code was pending in at most one record. -/
theorem handleToken_consumes {σ : Type} (env : Env) (store : SessionStore σ)
    (holds : σ → Session → Prop) (hc : StoreContract store holds) (db : σ) (req : TokenRequest)
    (huniq : CodeUnique holds db req.Code) (body : Body)
    (hsucc : Effect.JSON 200 body ∈ (HandleToken env store db (.ok req)).trace) :
    CodeAbsent holds (HandleToken env store db (.ok req)).store req.Code := by
  unfold HandleToken at hsucc ⊢
  dsimp only at hsucc ⊢
  split at hsucc
  · simp at hsucc
  · rename_i hcred
    rw [if_neg hcred]
    cases hlook : store.GetByAccessCode db req.Code with
    | error err => rw [hlook] at hsucc; simp at hsucc
    | ok session =>
      rw [hlook] at hsucc
      dsimp only at hsucc ⊢
      obtain ⟨hheld, hcode⟩ := hc.lookup_sound _ _ _ hlook
      cases hupd : store.Update db
          (session.UnsetAccessCode.GenerateRunnerToken env.sign
            session.UnsetAccessCode.BackendToken.Expiry) with
      | mk db1 res =>
        rw [hupd] at hsucc
        cases res with
        | some err => simp at hsucc
        | none =>
          intro x hx hxcode
          rcases hc.update_ok _ _ _ x hupd hx with h | h
          · exact h.2 (by rw [unset_generate_ID]; exact huniq x session h.1 hheld hxcode hcode)
          · rw [h, unset_generate_AccessCode] at hxcode
            simp at hxcode

/-- The in-memory store honours the contract, for "is an element of the list". -/
theorem memStore_contract : StoreContract memStore (fun db x => x ∈ db) := by
  constructor
  · intro db code x h
    simp only [memStore] at h
    cases hf : List.find? (fun x => decide (x.AccessCode = some code)) db with
    | none => rw [hf] at h; simp at h
    | some y =>
      rw [hf] at h
      simp only [Except.ok.injEq] at h
      subst h
      exact ⟨List.mem_of_find?_eq_some hf, by simpa using List.find?_some hf⟩
  · intro db code h
    refine ⟨"session not found", ?_⟩
    simp only [memStore]
    have hf : List.find? (fun x => decide (x.AccessCode = some code)) db = none := by
      rw [List.find?_eq_none]
      intro x hx
      simpa using h x hx
    rw [hf]
  · intro db s db1 x h hx
    simp only [memStore] at h
    split at h
    · simp only [Prod.mk.injEq, and_true] at h
      subst h
      rw [List.mem_map] at hx
      obtain ⟨y, hy, hyx⟩ := hx
      by_cases hid : y.ID = s.ID
      · right; rw [if_pos hid] at hyx; exact hyx.symm
      · left; rw [if_neg hid] at hyx; subst hyx; exact ⟨hy, hid⟩
    · simp at h
  · intro db s db1 err x h hx
    simp only [memStore] at h
    split at h
    · simp at h
    · simp only [Prod.mk.injEq] at h
      rw [← h.1] at hx
      exact hx
  · intro db s db1 x h hx
    simp only [memStore] at h
    split at h
    · simp at h
    · simp only [Prod.mk.injEq, and_true] at h
      subst h
      simpa using hx
  · intro db s db1 err x h hx
    simp only [memStore] at h
    split at h
    · simp only [Prod.mk.injEq] at h
      rw [← h.1] at hx
      exact hx
    · simp at h

/-- C2 (shared code): the in-memory store honours the lookup contract, and when
two persisted sessions carry the same access code a token exchange with that
code succeeds, and a second exchange with the same code succeeds again, on the
other session. -/
theorem handleToken_replay_succeeds_on_shared_code :
    (HandleToken sampleEnv memStore
        [sampleSession, ⟨"S2", ⟨"backend2", 1700003600⟩, some "9XJ", none⟩]
        (.ok ⟨"9XJ", "abc123", "s3cret"⟩)).trace
        = [.StoreGetByAccessCode "9XJ",
            .StoreUpdate ⟨"S1", ⟨"backend", 1700003600⟩, none, some "runner-token:S1"⟩,
            .JSON 200 (.token (some "runner-token:S1"))]
      ∧ (HandleToken sampleEnv memStore
          (HandleToken sampleEnv memStore
            [sampleSession, ⟨"S2", ⟨"backend2", 1700003600⟩, some "9XJ", none⟩]
            (.ok ⟨"9XJ", "abc123", "s3cret"⟩)).store
          (.ok ⟨"9XJ", "abc123", "s3cret"⟩)).trace
        = [.StoreGetByAccessCode "9XJ",
            .StoreUpdate ⟨"S2", ⟨"backend2", 1700003600⟩, none, some "runner-token:S2"⟩,
            .JSON 200 (.token (some "runner-token:S2"))] := by
  constructor <;> decide

/-- C2 (amended): over a store that honours the contract (lookup by access code
sound and complete, `Update` and `Create` writing exactly the given session),
once a token exchange with valid client credentials has succeeded with a code
that was pending in at most one record, every later token exchange with that
code and valid credentials, after any sequence of start requests and token
exchanges (retries included), fails at the lookup by access code: the lookup
returns an error, the response carries that error and no token, `Update` is
not called and the store is left as it was. -/
theorem handleToken_replay_fails {σ : Type} (env : Env) (store : SessionStore σ)
    (holds : σ → Session → Prop) (hc : StoreContract store holds) (db : σ)
    (req : TokenRequest) (huniq : CodeUnique holds db req.Code) (body : Body)
    (hsucc : Effect.JSON 200 body ∈ (HandleToken env store db (.ok req)).trace)
    (later : List Call) (retry : TokenRequest) (hcode : retry.Code = req.Code)
    (hid : env.IsValidClientID retry.ClientID = true)
    (hsecret : env.IsValidClientSecret retry.ClientSecret = true) :
    ∃ err status,
      store.GetByAccessCode (execCalls env store (HandleToken env store db (.ok req)).store later)
          req.Code = .error err
        ∧ HandleToken env store (execCalls env store (HandleToken env store db (.ok req)).store later)
            (.ok retry)
          = ⟨[.StoreGetByAccessCode req.Code, .JSON status (.text err)],
              execCalls env store (HandleToken env store db (.ok req)).store later⟩ := by
  have h1 := handleToken_consumes env store holds hc db req huniq body hsucc
  have h2 := execCalls_keeps_absent env store holds hc req.Code later _ h1
  obtain ⟨err, herr⟩ := hc.lookup_complete _ _ h2
  refine ⟨err, 500, herr, ?_⟩
  have hmiss : store.GetByAccessCode
      (execCalls env store (HandleToken env store db (.ok req)).store later) retry.Code
        = .error err := by rw [hcode]; exact herr
  rw [handleToken_lookup_failure_aux env store _ retry err hid hsecret hmiss, hcode]

theorem handleToken_replay_fails_witness :
    ∃ err status,
      memStore.GetByAccessCode
          (execCalls sampleEnv memStore
            (HandleToken sampleEnv memStore [sampleSession] (.ok ⟨"9XJ", "abc123", "s3cret"⟩)).store
            [.Token (.ok ⟨"9XJ", "abc123", "s3cret"⟩),
              .Authorization "S2" ⟨"client_id=abc123&state=xyz", [("token", "backend")]⟩])
          "9XJ" = .error err
        ∧ HandleToken sampleEnv memStore
            (execCalls sampleEnv memStore
              (HandleToken sampleEnv memStore [sampleSession]
                (.ok ⟨"9XJ", "abc123", "s3cret"⟩)).store
              [.Token (.ok ⟨"9XJ", "abc123", "s3cret"⟩),
                .Authorization "S2" ⟨"client_id=abc123&state=xyz", [("token", "backend")]⟩])
            (.ok ⟨"9XJ", "abc123", "s3cret"⟩)
          = ⟨[.StoreGetByAccessCode "9XJ", .JSON status (.text err)],
              [⟨"S1", ⟨"backend", 1700003600⟩, none, some "runner-token:S1"⟩,
                ⟨"S2", ⟨"backend", 1700003600⟩, none, none⟩]⟩ :=
  handleToken_replay_fails sampleEnv memStore (fun db x => x ∈ db) memStore_contract
    [sampleSession] ⟨"9XJ", "abc123", "s3cret"⟩
    (by
      intro x y hx hy _ _
      rw [List.mem_singleton] at hx hy
      rw [hx, hy])
    (.token (some "runner-token:S1")) (by decide)
    [.Token (.ok ⟨"9XJ", "abc123", "s3cret"⟩),
      .Authorization "S2" ⟨"client_id=abc123&state=xyz", [("token", "backend")]⟩]
    ⟨"9XJ", "abc123", "s3cret"⟩ rfl (by decide) (by decide)

end Runner

namespace Runner

open url

/-! ## Query escaping round trip -/

theorem upperhex_spec : ∀ n : Fin 16,
    ishex (upperhex n.val) = true ∧ unhex (upperhex n.val) = n.val
      ∧ upperhex n.val ≠ '&' ∧ upperhex n.val ≠ '=' ∧ upperhex n.val ≠ ';' := by
  decide

theorem mk_toList (s : String) : String.mk s.toList = s := rfl

/-- An unreserved byte is none of the bytes the query syntax gives a meaning. -/
theorem not_shouldEscape (c : Char) (h : shouldEscape c = false) :
    c ≠ '%' ∧ c ≠ '+' ∧ c ≠ '&' ∧ c ≠ '=' ∧ c ≠ ';' := by
  refine ⟨?_, ?_, ?_, ?_, ?_⟩ <;> intro hc <;> subst hc <;> revert h <;> decide

/-- Unescaping undoes escaping, on byte strings. -/
theorem unescape_escape (s : List Char) (hs : ∀ c ∈ s, c.toNat < 256) :
    unescapeChars (escapeChars s) = some s := by
  induction s with
  | nil => rfl
  | cons c rest ih =>
    have hrest : ∀ d ∈ rest, d.toNat < 256 := fun d hd => hs d (List.mem_cons_of_mem _ hd)
    have hc : c.toNat < 256 := hs c (List.mem_cons_self _ _)
    unfold escapeChars
    by_cases hsp : c = ' '
    · rw [if_pos hsp]
      unfold unescapeChars
      rw [if_neg (by decide), if_pos rfl, ih hrest, hsp]
      rfl
    · rw [if_neg hsp]
      by_cases hesc : shouldEscape c = true
      · rw [if_pos hesc]
        have hhi : c.toNat / 16 < 16 := by omega
        have hlo : c.toNat % 16 < 16 := by omega
        obtain ⟨h1, h2, -⟩ := upperhex_spec ⟨c.toNat / 16, hhi⟩
        obtain ⟨h3, h4, -⟩ := upperhex_spec ⟨c.toNat % 16, hlo⟩
        simp only at h1 h2 h3 h4
        unfold unescapeChars
        rw [if_pos rfl]
        simp only [h1, h3, Bool.and_self, if_true, h2, h4, ih hrest, Option.map_some']
        have : c.toNat / 16 * 16 + c.toNat % 16 = c.toNat := by omega
        rw [this, Char.ofNat_toNat]
      · rw [if_neg hesc]
        have hesc' : shouldEscape c = false := by simpa using hesc
        obtain ⟨hp, hplus, -⟩ := not_shouldEscape c hesc'
        unfold unescapeChars
        rw [if_neg hp, if_neg hplus, ih hrest]
        rfl

/-- An escaped byte string holds no '&', '=' or ';'. -/
theorem escape_plain (s : List Char) (hs : ∀ c ∈ s, c.toNat < 256) :
    ∀ c ∈ escapeChars s, c ≠ '&' ∧ c ≠ '=' ∧ c ≠ ';' := by
  induction s with
  | nil => intro c hc; simp [escapeChars] at hc
  | cons d rest ih =>
    have hrest : ∀ e ∈ rest, e.toNat < 256 := fun e he => hs e (List.mem_cons_of_mem _ he)
    have hd : d.toNat < 256 := hs d (List.mem_cons_self _ _)
    intro c hc
    unfold escapeChars at hc
    by_cases hsp : d = ' '
    · rw [if_pos hsp] at hc
      rcases List.mem_cons.mp hc with h | h
      · subst h; decide
      · exact ih hrest c h
    · rw [if_neg hsp] at hc
      by_cases hesc : shouldEscape d = true
      · rw [if_pos hesc] at hc
        have hhi : d.toNat / 16 < 16 := by omega
        have hlo : d.toNat % 16 < 16 := by omega
        obtain ⟨-, -, h1⟩ := upperhex_spec ⟨d.toNat / 16, hhi⟩
        obtain ⟨-, -, h2⟩ := upperhex_spec ⟨d.toNat % 16, hlo⟩
        simp only at h1 h2
        rcases List.mem_cons.mp hc with h | h
        · subst h; decide
        · rcases List.mem_cons.mp h with h | h
          · subst h; exact h1
          · rcases List.mem_cons.mp h with h | h
            · subst h; exact h2
            · exact ih hrest c h
      · rw [if_neg hesc] at hc
        have hesc' : shouldEscape d = false := by simpa using hesc
        obtain ⟨-, -, h3⟩ := not_shouldEscape d hesc'
        rcases List.mem_cons.mp hc with h | h
        · subst h; exact h3
        · exact ih hrest c h

theorem cutChars_append (sep : Char) (k v : List Char) (hk : ∀ c ∈ k, c ≠ sep) :
    cutChars sep (k ++ sep :: v) = (k, v) := by
  induction k with
  | nil => simp [cutChars]
  | cons c rest ih =>
    have hc : c ≠ sep := hk c (List.mem_cons_self _ _)
    have hrest : ∀ d ∈ rest, d ≠ sep := fun d hd => hk d (List.mem_cons_of_mem _ hd)
    simp [cutChars, hc, ih hrest]

theorem splitChars_plain (sep : Char) (a : List Char) (ha : ∀ c ∈ a, c ≠ sep) :
    splitChars sep a = [a] := by
  induction a with
  | nil => rfl
  | cons c rest ih =>
    have hc : c ≠ sep := ha c (List.mem_cons_self _ _)
    have hrest : ∀ d ∈ rest, d ≠ sep := fun d hd => ha d (List.mem_cons_of_mem _ hd)
    simp [splitChars, hc, ih hrest]

theorem splitChars_append (sep : Char) (a b : List Char) (ha : ∀ c ∈ a, c ≠ sep) :
    splitChars sep (a ++ sep :: b) = a :: splitChars sep b := by
  induction a with
  | nil => simp [splitChars]
  | cons c rest ih =>
    have hc : c ≠ sep := ha c (List.mem_cons_self _ _)
    have hrest : ∀ d ∈ rest, d ≠ sep := fun d hd => ha d (List.mem_cons_of_mem _ hd)
    simp [splitChars, hc, ih hrest]

theorem pairChars_plain (k v : String) (hk : ∀ c ∈ k.toList, c.toNat < 256)
    (hv : ∀ c ∈ v.toList, c.toNat < 256) :
    ∀ c ∈ pairChars k v, c ≠ '&' ∧ c ≠ ';' := by
  intro c hc
  simp only [pairChars, QueryEscape, List.mem_append, List.mem_cons] at hc
  rcases hc with h | h | h
  · exact ⟨(escape_plain _ hk c h).1, (escape_plain _ hk c h).2.2⟩
  · subst h; decide
  · exact ⟨(escape_plain _ hv c h).1, (escape_plain _ hv c h).2.2⟩

/-- Parsing one encoded pair adds exactly that pair. -/
theorem parseSegment_pair (m : Values) (k v : String) (hk : ∀ c ∈ k.toList, c.toNat < 256)
    (hv : ∀ c ∈ v.toList, c.toNat < 256) :
    parseSegment m (pairChars k v) = Values.Add m k v := by
  have hsemi : (pairChars k v).contains ';' = false := by
    rw [Bool.eq_false_iff]
    intro h
    have hmem : ';' ∈ pairChars k v := by simpa using h
    exact (pairChars_plain k v hk hv ';' hmem).2 rfl
  have hne : (pairChars k v).isEmpty = false := by
    simp [pairChars]
  have hcut : cutChars '=' (pairChars k v) = (escapeChars k.toList, escapeChars v.toList) := by
    simp only [pairChars, QueryEscape]
    exact cutChars_append '=' _ _ (fun c hc => (escape_plain _ hk c hc).2.1)
  unfold parseSegment
  rw [hsemi, hne, hcut]
  simp only [Bool.false_eq_true, if_false, unescape_escape _ hk, unescape_escape _ hv, mk_toList]

end Runner

namespace Runner

open saml

/-- The three parameters of the downstream redirect read back from the encoded
query as they were added. -/
theorem callback_query_roundtrip (code state : String)
    (hcode : ∀ ch ∈ code.toList, ch.toNat < 256) (hstate : ∀ ch ∈ state.toList, ch.toNat < 256) :
    url.ParseQuery
        (url.Values.Encode
          (url.Values.Add (url.Values.Add (url.Values.Add [] "app_id" "saml") "code" code)
            "state" state))
      = [("app_id", ["saml"]), ("code", [code]), ("state", [state])] := by
  have hlit1 : ∀ ch ∈ "app_id".toList, ch.toNat < 256 := by decide
  have hlit2 : ∀ ch ∈ "saml".toList, ch.toNat < 256 := by decide
  have hlit3 : ∀ ch ∈ "code".toList, ch.toNat < 256 := by decide
  have hlit4 : ∀ ch ∈ "state".toList, ch.toNat < 256 := by decide
  have hadd : url.Values.Add (url.Values.Add (url.Values.Add [] "app_id" "saml") "code" code)
      "state" state = [("app_id", ["saml"]), ("code", [code]), ("state", [state])] := by
    simp [url.Values.Add]
  have hsort : url.sortEntries [("app_id", ["saml"]), ("code", [code]), ("state", [state])]
      = [("app_id", ["saml"]), ("code", [code]), ("state", [state])] := by
    simp [url.sortEntries, url.insertEntry, url.leChars]
  have hamp1 : ∀ c ∈ url.pairChars "app_id" "saml", c ≠ '&' :=
    fun c hc => (pairChars_plain _ _ hlit1 hlit2 c hc).1
  have hamp2 : ∀ c ∈ url.pairChars "code" code, c ≠ '&' :=
    fun c hc => (pairChars_plain _ _ hlit3 hcode c hc).1
  have hamp3 : ∀ c ∈ url.pairChars "state" state, c ≠ '&' :=
    fun c hc => (pairChars_plain _ _ hlit4 hstate c hc).1
  rw [hadd]
  simp only [url.ParseQuery, url.Values.Encode, hsort, List.flatMap_cons, List.flatMap_nil,
    url.encodeEntry, List.map_cons, List.map_nil, List.append_nil, List.singleton_append,
    url.joinPairs, String.toList]
  rw [splitChars_append '&' _ _ hamp1, splitChars_append '&' _ _ hamp2,
    splitChars_plain '&' _ hamp3]
  simp only [List.foldl_cons, List.foldl_nil]
  rw [parseSegment_pair _ _ _ hlit1 hlit2, parseSegment_pair _ _ _ hlit3 hcode,
    parseSegment_pair _ _ _ hlit4 hstate, hadd]

/-- C9 (host query): when the configured host URL carries the query
"code=evil&state=zzz", the redirect of a successful session exchange that drew
the code "9XJ" for a request with state "xyz" reads back code "evil" and state
"zzz": the handler adds its parameters to the host's own. -/
theorem handleSession_host_query_shadows_code :
    (HandleSession { sampleEnv with Host := ⟨"https", "deepsource.example", "", "code=evil&state=zzz"⟩ }
        memStore [⟨"S1", ⟨"backend", 1700003600⟩, none, none⟩] "9XJ"
        ⟨"state=xyz", [("session", "S1")]⟩).trace
        = [.StoreGetByID "S1", .KsuidNew "9XJ",
            .StoreUpdate ⟨"S1", ⟨"backend", 1700003600⟩, some "9XJ", none⟩,
            .Redirect 307 ⟨"https", "deepsource.example",
              "/accounts/runner/apps/saml/login/callback/bifrost/",
              "app_id=saml&code=evil&code=9XJ&state=zzz&state=xyz"⟩]
      ∧ (url.ParseQuery "app_id=saml&code=evil&code=9XJ&state=zzz&state=xyz").Get "code" = "evil"
      ∧ (url.ParseQuery "app_id=saml&code=evil&code=9XJ&state=zzz&state=xyz").Get "state"
        = "zzz" := by
  refine ⟨?_, ?_, ?_⟩ <;> decide

/-- C9 (amended): when the configured host URL has no query of its own, a
session-exchange request whose session cookie names a session found in the
store, and whose raw query carries the state `state`, draws one code, writes it
on the session and hands that session to `Update`.  When the update succeeds,
the handler redirects (307) to the host's callback path, and the query of the
redirect is the encoding of, and parses back to, exactly app_id = "saml",
code = the drawn code, which is the `AccessCode` of the session handed to
`Update`, and state = `state` (strings are byte strings).  When the update
fails, the handler answers 500 with the error text and issues no redirect. -/
theorem handleSession_issues_code {σ : Type} (env : Env) (store : SessionStore σ) (db : σ)
    (code : String) (c : http.Request) (id : String) (session : Session) (state : String)
    (hcookie : c.Cookies.lookup "session" = some id)
    (hquery : (url.ParseQuery c.RawQuery).Get "state" = state)
    (hfound : store.GetByID db id = .ok session)
    (hhost : env.Host.RawQuery = "")
    (hcode : ∀ ch ∈ code.toList, ch.toNat < 256)
    (hstate : ∀ ch ∈ state.toList, ch.toNat < 256) :
    (∀ db1, store.Update db (session.SetAccessCode code) = (db1, none) →
      ∃ u : url.URL,
        HandleSession env store db code c
            = ⟨[.StoreGetByID id, .KsuidNew code, .StoreUpdate (session.SetAccessCode code),
                .Redirect 307 u], db1⟩
          ∧ (session.SetAccessCode code).AccessCode = some code
          ∧ u.Scheme = env.Host.Scheme ∧ u.Host = env.Host.Host
          ∧ u.Path
            = env.joinPath env.Host.Path "/accounts/runner/apps/saml/login/callback/bifrost/"
          ∧ u.RawQuery
            = url.Values.Encode [("app_id", ["saml"]), ("code", [code]), ("state", [state])]
          ∧ url.ParseQuery u.RawQuery
            = [("app_id", ["saml"]), ("code", [code]), ("state", [state])])
      ∧ (∀ db1 err, store.Update db (session.SetAccessCode code) = (db1, some err) →
          HandleSession env store db code c
            = ⟨[.StoreGetByID id, .KsuidNew code, .StoreUpdate (session.SetAccessCode code),
                .JSON 500 (.text err)], db1⟩) := by
  have hq0 : url.ParseQuery "" = [] := by decide
  have hadd : url.Values.Add (url.Values.Add (url.Values.Add [] "app_id" "saml") "code" code)
      "state" state = [("app_id", ["saml"]), ("code", [code]), ("state", [state])] := by
    simp [url.Values.Add]
  have hcookie' : c.Cookie "session" = some id := hcookie
  have hquery' : c.Query.Get "state" = state := hquery
  constructor
  · intro db1 hupd
    refine ⟨⟨env.Host.Scheme, env.Host.Host,
      env.joinPath env.Host.Path "/accounts/runner/apps/saml/login/callback/bifrost/",
      url.Values.Encode [("app_id", ["saml"]), ("code", [code]), ("state", [state])]⟩,
      ?_, rfl, rfl, rfl, rfl, rfl, ?_⟩
    · simp only [HandleSession, SessionRequest.Parse, hcookie', hquery', hfound, hupd,
        url.URL.Query, hhost, hq0, hadd]
    · have h := callback_query_roundtrip code state hcode hstate
      rw [hadd] at h
      exact h
  · intro db1 err hupd
    simp only [HandleSession, SessionRequest.Parse, hcookie', hquery', hfound, hupd]

theorem handleSession_issues_code_witness :
    ∃ u : url.URL,
      HandleSession sampleEnv memStore [⟨"S1", ⟨"backend", 1700003600⟩, none, none⟩] "9XJ"
          ⟨"state=x%26y", [("session", "S1")]⟩
          = ⟨[.StoreGetByID "S1", .KsuidNew "9XJ",
              .StoreUpdate (Session.SetAccessCode ⟨"S1", ⟨"backend", 1700003600⟩, none, none⟩ "9XJ"),
              .Redirect 307 u], [⟨"S1", ⟨"backend", 1700003600⟩, some "9XJ", none⟩]⟩
        ∧ (Session.SetAccessCode ⟨"S1", ⟨"backend", 1700003600⟩, none, none⟩ "9XJ").AccessCode
          = some "9XJ"
        ∧ u.Scheme = "https" ∧ u.Host = "deepsource.example"
        ∧ u.Path = "/accounts/runner/apps/saml/login/callback/bifrost/"
        ∧ u.RawQuery
          = url.Values.Encode [("app_id", ["saml"]), ("code", ["9XJ"]), ("state", ["x&y"])]
        ∧ url.ParseQuery u.RawQuery
          = [("app_id", ["saml"]), ("code", ["9XJ"]), ("state", ["x&y"])] :=
  (handleSession_issues_code sampleEnv memStore [⟨"S1", ⟨"backend", 1700003600⟩, none, none⟩]
    "9XJ" ⟨"state=x%26y", [("session", "S1")]⟩ "S1" ⟨"S1", ⟨"backend", 1700003600⟩, none, none⟩
    "x&y" rfl (by decide) rfl rfl (by decide) (by decide)).1
    [⟨"S1", ⟨"backend", 1700003600⟩, some "9XJ", none⟩] rfl

/-- The redirect of the sample session exchange, evaluated: the state "x&y" of
the request arrives escaped in the query of the callback URL. -/
theorem handleSession_sample_run :
    (HandleSession sampleEnv memStore [⟨"S1", ⟨"backend", 1700003600⟩, none, none⟩] "9XJ"
        ⟨"state=x%26y", [("session", "S1")]⟩).trace
      = [.StoreGetByID "S1", .KsuidNew "9XJ",
          .StoreUpdate ⟨"S1", ⟨"backend", 1700003600⟩, some "9XJ", none⟩,
          .Redirect 307 ⟨"https", "deepsource.example",
            "/accounts/runner/apps/saml/login/callback/bifrost/",
            "app_id=saml&code=9XJ&state=x%26y"⟩] := by
  decide

end Runner
